import Mathlib

set_option maxRecDepth 10000
set_option autoImplicit false

/- Verification of the infact dynamic object factory, typed environment and
   the factory's parsing control flow.  The definitions below are a shallow
   embedding of:
     - src/infact/factory.h          (TypeName, MemberInitializer,
                                      TypedMemberInitializer::Init,
                                      Initializers::Add, Factory::Register,
                                      Factory::CreateOrDie)
     - src/infact/environment-impl.h (EnvironmentImpl: Defined, GetType,
                                      GetVarMapForType, GetVarMap, Copy, Get)
   The stream tokenizer and the body of Environment::ReadAndSet live in files
   that are not part of this source tree (stream-tokenizer.h, environment.h
   and the .cc files); where they are needed they are modelled from the
   specification, and each such definition says so in its doc comment. -/

/-- Token kinds of the external stream tokenizer, modelled from the spec
    (section 4.1): IDENTIFIER, RESERVED_WORD, STRING, NUMBER, PUNCT, EOF. -/
inductive TokKind where
  | ident
  | reserved
  | str
  | num
  | punct
  | eof
deriving DecidableEq, Repr

/-- A classified token, modelled from the spec (section 4.1): kind, text and
    byte offsets.  `start` is the token's starting byte offset in the source;
    `stop` is the byte offset just past the token's last source character
    (so for a string token, `stop - start` counts the surrounding quotes
    even though `text` holds just the content). -/
structure Tok where
  kind : TokKind
  text : String
  start : Nat
  stop : Nat
deriving DecidableEq, Repr

/-- State of the stream tokenizer: the full source (`st.str()`), the tokens
    not yet consumed, and the byte offset just past the last consumed token,
    which is what `st.tellg()` reports (the spec's `tell`, section 6). -/
structure TokState where
  src : List Char
  toks : List Tok
  lastEnd : Nat
deriving DecidableEq, Repr

/-- Kind of the next token (`st.PeekTokenType()`); EOF when exhausted. -/
def TokState.peekKind (s : TokState) : TokKind :=
  match s.toks with
  | [] => .eof
  | t :: _ => t.kind

/-- Text of the next token (`st.Peek()`); empty at end of stream. -/
def TokState.peekStr (s : TokState) : String :=
  match s.toks with
  | [] => ""
  | t :: _ => t.text

/-- Starting byte offset of the next token (`st.PeekTokenStart()`). -/
def TokState.peekTokenStart (s : TokState) : Nat :=
  match s.toks with
  | [] => s.lastEnd
  | t :: _ => t.start

/-- Consume one token (`st.Next()`). -/
def TokState.next (s : TokState) : TokState :=
  match s.toks with
  | [] => s
  | t :: r => ⟨s.src, r, t.stop⟩

/-- Consume `n` tokens. -/
def TokState.advance : TokState → Nat → TokState
  | s, 0 => s
  | s, n + 1 => TokState.advance (TokState.next s) n

/-- Current stream position, `st.tellg()`: just past the last consumed token. -/
def TokState.tellg (s : TokState) : Nat := s.lastEnd

/-- Association-list lookup, the model of `unordered_map::find`. -/
def lookupA {α : Type} : List (String × α) → String → Option α
  | [], _ => none
  | (k2, v) :: r, k => if k2 = k then some v else lookupA r k

/-- Values stored in the environment.  Doubles keep their literal text,
    since no claim depends on floating-point arithmetic. -/
inductive Value where
  | vBool (b : Bool)
  | vInt (n : Int)
  | vDouble (lit : String)
  | vStr (s : String)
deriving DecidableEq, Repr

/-- A type-specialized variable map, the model of `VarMap<T>`:
    `typeName` is the type tag it is stored under, `cppType` identifies the
    C++ element type `T` (as its type-tag string), and `entries` maps
    variable names to values.  A `dynamic_cast<VarMap<T>*>` succeeds exactly
    when `cppType` equals the tag of `T`. -/
structure VarMap where
  typeName : String
  cppType : String
  entries : List (String × Value)
deriving DecidableEq, Repr

/-- The model of `EnvironmentImpl` (environment-impl.h): `types_` maps
    variable names to type tags, `var_map_` maps type tags to `VarMap`s,
    `concrete_to_factory_type_` maps concrete type names to abstract factory
    type names, and `debug_` is the debug level. -/
structure EnvI where
  types : List (String × String)
  varMaps : List (String × VarMap)
  concreteToFactory : List (String × String)
  debug : Int
deriving DecidableEq, Repr

/-- Model of `EnvironmentImpl::Defined` (environment-impl.h lines 78-81). -/
def EnvI.Defined (e : EnvI) (varname : String) : Bool :=
  (lookupA e.types varname).isSome

/-- Outcome of `EnvironmentImpl::GetType`.  In the source (lines 88-95) the
    branch for an undefined name holds only the comment `// Error or
    warning.` and falls through to `return type_it->second;`, dereferencing
    the end iterator; `derefEnd` marks that undefined behavior. -/
inductive GetTypeOut where
  | ok (t : String)
  | derefEnd
deriving DecidableEq, Repr

/-- Model of `EnvironmentImpl::GetType` (environment-impl.h lines 88-95). -/
def EnvI.GetType (e : EnvI) (varname : String) : GetTypeOut :=
  match lookupA e.types varname with
  | none => .derefEnd
  | some t => .ok t

/-- Model of `EnvironmentImpl::GetVarMapForType` (lines 102-118): a concrete
    Factory-constructible type name is first mapped to its abstract type
    name, then the `VarMap` is looked up. -/
def EnvI.GetVarMapForType (e : EnvI) (ty : String) : Option VarMap :=
  let lookupType :=
    match lookupA e.concreteToFactory ty with
    | some f => f
    | none => ty
  lookupA e.varMaps lookupType

/-- Model of `EnvironmentImpl::GetVarMap` (lines 97-99).  On an undefined
    name `GetType` commits undefined behavior; that path is modelled as
    `none` (a failed lookup). -/
def EnvI.GetVarMap (e : EnvI) (varname : String) : Option VarMap :=
  match EnvI.GetType e varname with
  | .ok t => EnvI.GetVarMapForType e t
  | .derefEnd => none

/-- Model of `VarMapBase::Copy` for one variable map: a fresh map holding
    the same entries. -/
def VarMap.copyVm (vm : VarMap) : VarMap :=
  ⟨vm.typeName, vm.cppType, vm.entries⟩

/-- Model of `EnvironmentImpl::Copy` (environment-impl.h lines 133-142):
    copy the member maps, then replace every `VarMap` by a copy of itself. -/
def EnvI.Copy (e : EnvI) : EnvI :=
  ⟨e.types, e.varMaps.map (fun p => (p.1, VarMap.copyVm p.2)),
   e.concreteToFactory, e.debug⟩

/-- Observable outcome of `EnvironmentImpl::Get` (lines 175-223): whether
    the fatal `Error` channel was raised, the boolean return value, the
    value written through the out parameter (if any), and the messages
    printed to `cerr`. -/
structure GetOut where
  fatal : Bool
  ret : Bool
  written : Option Value
  stderrMsgs : List String
deriving DecidableEq, Repr

/-- Model of the templated `EnvironmentImpl::Get` (environment-impl.h lines
    175-223).  `slotType` is the type tag of the out parameter's C++ type
    `T`; the `dynamic_cast<VarMap<T>*>` succeeds exactly when the stored
    `VarMap`'s `cppType` equals `slotType`.  Note which diagnostics are
    guarded by `debug_ >= 1` in the source and which are not. -/
def EnvI.Get (e : EnvI) (varname : String) (slotType : String) : GetOut :=
  match lookupA e.types varname with
  | none =>
    ⟨false, false, none,
     if e.debug ≥ 1 then ["Environment::Get: error: no value for variable"]
     else []⟩
  | some ty =>
    match lookupA e.varMaps ty with
    | none => ⟨true, false, none, []⟩
    | some vm =>
      if vm.cppType = slotType then
        match lookupA vm.entries varname with
        | some v => ⟨false, true, some v, []⟩
        | none => ⟨true, false, none, []⟩
      else
        ⟨false, false, none,
         ["Environment::Get: error: no value for variable of wrong type"]⟩

/-- The C++ types that `TypeName<T>` is instantiated at (factory.h lines
    153-226): the four primitives, a Factory-constructible class with its
    factory's `BaseName()`, `shared_ptr<T>` and `vector<T>`. -/
inductive CppType where
  | cBool
  | cInt
  | cDouble
  | cString
  | factory (baseName : String)
  | sptr (t : CppType)
  | vec (t : CppType)
deriving DecidableEq, Repr

/-- Model of `TypeName<T>().ToString()` (factory.h lines 153-226), one
    equation per template (partial) specialization. -/
def TypeNameOf : CppType → String
  | .cBool => "bool"
  | .cInt => "int"
  | .cDouble => "double"
  | .cString => "string"
  | .factory b => b
  | .sptr t => TypeNameOf t
  | .vec t => TypeNameOf t ++ "[]"

/-- One registered parameter of a Factory-constructible type, as declared by
    `RegisterInitializers` through `Initializers::Add`: the parameter name,
    the type tag of the member's C++ type, whether the member pointer is
    non-null (`false` models a temporary added with a null pointer), and
    whether the parameter is required. -/
structure Param where
  name : String
  typeTag : String
  hasMember : Bool
  required : Bool
deriving DecidableEq, Repr

/-- A constructor registered with a factory (the model of
    `Constructor<T>`): `id` distinguishes distinct constructor objects,
    `params` is the parameter list the fresh instance publishes. -/
structure Ctor where
  id : Nat
  params : List Param
deriving DecidableEq, Repr

/-- Model of `Factory<T>::Register` (factory.h lines 964-980): if the
    concrete type name is new, the constructor is added and returned;
    otherwise the table is unchanged, the new constructor is deleted (third
    component `true`) and the previously registered one is returned. -/
def FactoryRegister (tbl : List (String × Ctor)) (ty : String) (p : Ctor) :
    List (String × Ctor) × Ctor × Bool :=
  match lookupA tbl ty with
  | none => (tbl ++ [(ty, p)], p, false)
  | some c => (tbl, c, true)

/-- Run-time state of one `TypedMemberInitializer`: the registered
    parameter, the `initialized_` counter and the value last written through
    the member pointer. -/
structure PState where
  p : Param
  count : Nat
  memberVal : Option Value
deriving DecidableEq, Repr

/-- Model of building the `Initializers` table by calling
    `Initializers::Add` once per parameter (factory.h lines 375-384):
    a repeated parameter name is a fatal setup error (`none`). -/
def buildPStates : List Param → List PState → Option (List PState)
  | [], acc => some acc
  | p :: r, acc =>
    if (acc.find? (fun ps => ps.p.name = p.name)).isSome then none
    else buildPStates r (acc ++ [⟨p, 0, none⟩])

/-- Error kinds raised inside `Environment::ReadAndSet`. -/
inductive RasKind where
  | varExists
  | parseFail
  | refMismatch
  | envSync
deriving DecidableEq, Repr

/-- An error surfaced by `Environment::ReadAndSet`. -/
structure RasError where
  kind : RasKind
  pos : Nat
deriving DecidableEq, Repr

/-- The shape of `Environment::ReadAndSet(varname, st, type)`: given the
    variable name, the declared type tag, the remaining tokens and the
    environment, it either fails or returns the updated environment and the
    number of tokens it consumed. -/
abbrev RasFn := String → String → List Tok → EnvI → Except RasError (EnvI × Nat)

/-- Fatal error kinds raised by `Factory::CreateOrDie` through `Error`. -/
inductive FatalKind where
  | typeSpec
  | openParen
  | unknownType
  | dupMember
  | identExpected
  | unknownMember
  | memberOpen
  | memberClose
  | commaOrParen
  | closeParen
  | requiredMissing
  | rasFail
  | loopLimit
deriving DecidableEq, Repr

/-- A fatal error: its kind, the stream position it reports, and (for the
    required-parameter check only) the closing parenthesis token that had
    just been consumed when the check ran. -/
structure Fatal where
  kind : FatalKind
  pos : Nat
  closeTok : Option Tok
deriving DecidableEq, Repr

/-- Model of `TypedMemberInitializer<T>::Init` (factory.h lines 309-326):
    call `env->ReadAndSet(Name(), st, TypeName<T>().ToString())`; then, for
    a non-null member pointer, fetch the `VarMap` for the name, attempt the
    `dynamic_cast<VarMap<T>*>` (here: compare `cppType` with the member's
    type tag) and `Get` the value into the member, incrementing
    `initialized_` only on success; for a null member pointer (a temporary)
    increment `initialized_` as soon as the environment was modified. -/
def TMIInit (ras : RasFn) (env : EnvI) (toks : List Tok) (ps : PState) :
    Except Fatal (EnvI × Nat × PState) :=
  match ras ps.p.name ps.p.typeTag toks env with
  | .error re => .error ⟨.rasFail, re.pos, none⟩
  | .ok (env2, used) =>
    if ps.p.hasMember then
      match EnvI.GetVarMap env2 ps.p.name with
      | none => .ok (env2, used, ps)
      | some vm =>
        if vm.cppType = ps.p.typeTag then
          match lookupA vm.entries ps.p.name with
          | some v => .ok (env2, used, ⟨ps.p, ps.count + 1, some v⟩)
          | none => .ok (env2, used, ps)
        else .ok (env2, used, ps)
    else .ok (env2, used, ⟨ps.p, ps.count + 1, ps.memberVal⟩)

/-- Find the member initializer with the given name (`initializers.find`). -/
def findPState (l : List PState) (n : String) : Option PState :=
  l.find? (fun ps => ps.p.name = n)

/-- Store back the updated state of the member initializer named `n`. -/
def setPState (l : List PState) (n : String) (ps : PState) : List PState :=
  l.map (fun q => if q.p.name = n then ps else q)

/-- Model of the member-initializer list loop of `Factory::CreateOrDie`
    (factory.h lines 810-873): while the next token is not `')'`, read a
    member name (IDENTIFIER, known), `'('`, run the member's `Init`, read
    `')'`, and then a `','` or the final `')'`.  `fuel` bounds the number of
    iterations; each iteration consumes at least three tokens, so any fuel
    of at least the token count behaves as the unbounded loop. -/
def parseArgs (ras : RasFn) : Nat → EnvI → List PState → TokState →
    Except Fatal (EnvI × List PState × TokState)
  | 0, _, _, _ => .error ⟨.loopLimit, 0, none⟩
  | fuel + 1, env, inits, st =>
    if TokState.peekStr st = ")" then .ok (env, inits, st)
    else if TokState.peekKind st ≠ TokKind.ident then
      .error ⟨.identExpected, TokState.peekTokenStart st, none⟩
    else
      let memberName := TokState.peekStr st
      let memberStart := TokState.peekTokenStart st
      let st1 := TokState.next st
      match findPState inits memberName with
      | none => .error ⟨.unknownMember, memberStart, none⟩
      | some ps =>
        if TokState.peekStr st1 ≠ "(" then
          .error ⟨.memberOpen, TokState.peekTokenStart st1, none⟩
        else
          let st2 := TokState.next st1
          match TMIInit ras env st2.toks ps with
          | .error f => .error f
          | .ok (env2, used, ps2) =>
            let st3 := TokState.advance st2 used
            let inits2 := setPState inits memberName ps2
            if TokState.peekStr st3 ≠ ")" then
              .error ⟨.memberClose, TokState.peekTokenStart st3, none⟩
            else
              let st4 := TokState.next st3
              if TokState.peekStr st4 ≠ "," ∧ TokState.peekStr st4 ≠ ")" then
                .error ⟨.commaOrParen, TokState.peekTokenStart st4, none⟩
              else
                let st5 :=
                  if TokState.peekStr st4 = "," then TokState.next st4 else st4
                parseArgs ras fuel env2 inits2 st5

/-- Everything `Factory::CreateOrDie` produces on success: whether the
    result is the null pointer (the `nullptr`/`NULL` case), the concrete
    type name, the final tokenizer state, the child environment as first
    created and as finally passed to `PostInit`, the caller's environment
    after the call, the list of `PostInit` invocations (environment and
    init string), the final member-initializer states, the starting offset
    captured at entry, and the consumed closing parenthesis token. -/
structure CreateSuccess where
  isNull : Bool
  typ : String
  finalSt : TokState
  childEnvStart : EnvI
  childEnvFinal : EnvI
  callerEnvAfter : Option EnvI
  postInitCalls : List (EnvI × List Char)
  finalInits : List PState
  startPos : Nat
  closeTok : Option Tok
deriving DecidableEq, Repr

/-- The substring `src.substr(a, b - a)` of the full input. -/
def srcSub (src : List Char) (a b : Nat) : List Char :=
  (src.drop a).take (b - a)

/-- Model of `Environment::CreateEmpty()`. -/
def emptyEnvI : EnvI := ⟨[], [], [], 0⟩

/-- The environment `CreateOrDie` works in: an empty one when called
    without a caller environment, otherwise `env->Copy()` (factory.h lines
    763-764). -/
def envCopyOf (envOpt : Option EnvI) : EnvI :=
  match envOpt with
  | none => emptyEnvI
  | some e => EnvI.Copy e

/-- The tail of `Factory<T>::CreateOrDie` after the member-initializer loop
    (factory.h lines 875-911): read the final `')'`, check the required
    members, capture `init_str` from the recorded start offset to
    `st.tellg()` and invoke `PostInit` once. -/
def finishCreate (src : List Char) (start : Nat) (ty : String)
    (envOpt : Option EnvI) (envCopy env2 : EnvI) (inits2 : List PState)
    (stC : TokState) : Except Fatal CreateSuccess :=
  match stC.toks with
  | [] => .error ⟨.closeParen, TokState.peekTokenStart stC, none⟩
  | closeT :: _ =>
    if closeT.text = ")" then
      let stD := TokState.next stC
      if (inits2.find? (fun ps => ps.p.required && ps.count == 0)).isSome then
        .error ⟨.requiredMissing, TokState.tellg stD, some closeT⟩
      else
        .ok ⟨false, ty, stD, envCopy, env2, envOpt,
             [(env2, srcSub src start (TokState.tellg stD))], inits2, start,
             some closeT⟩
    else .error ⟨.closeParen, closeT.start, none⟩

/-- Model of `Factory<T>::CreateOrDie` (factory.h lines 762-912).
    Mirrors the source step by step: snapshot the environment (copy), note
    the next token's start offset, return a null instance on
    `nullptr`/`NULL`, read the concrete type name and `'('`, look the type
    up in `cons_table_`, build the member-initializer table, run the
    argument-list loop, read the final `')'`, fail if a required member was
    never initialized (reporting `st.tellg()`), and otherwise call
    `PostInit` once with the child environment and the literal substring
    from the recorded start offset to `st.tellg()`. -/
def createOrDie (ras : RasFn) (tbl : List (String × Ctor))
    (envOpt : Option EnvI) (st : TokState) : Except Fatal CreateSuccess :=
  let envCopy := envCopyOf envOpt
  let start := TokState.peekTokenStart st
  if TokState.peekKind st = TokKind.reserved ∧
      (TokState.peekStr st = "nullptr" ∨ TokState.peekStr st = "NULL") then
    .ok ⟨true, "", TokState.next st, envCopy, envCopy, envOpt, [], [], start,
         none⟩
  else if TokState.peekKind st ≠ TokKind.ident then
    .error ⟨.typeSpec, start, none⟩
  else
    let ty := TokState.peekStr st
    let stA := TokState.next st
    if TokState.peekStr stA ≠ "(" then
      .error ⟨.openParen, TokState.peekTokenStart stA, none⟩
    else
      let stB := TokState.next stA
      match lookupA tbl ty with
      | none => .error ⟨.unknownType, 0, none⟩
      | some ctor =>
        match buildPStates ctor.params [] with
        | none => .error ⟨.dupMember, 0, none⟩
        | some inits0 =>
          match parseArgs ras (stB.toks.length + 1) envCopy inits0 stB with
          | .error f => .error f
          | .ok (env2, inits2, stC) =>
            finishCreate st.src start ty envOpt envCopy env2 inits2 stC

/-- Write a variable into the environment.  Modelled from the spec
    (section 4.3, read-and-set): record `(name, type-tag, value)` in both
    `types` and the per-type map, creating the map if absent. -/
def envSetVar (env : EnvI) (varname ty : String) (v : Value) : EnvI :=
  let vms :=
    match lookupA env.varMaps ty with
    | some _ =>
      env.varMaps.map (fun p =>
        if p.1 = ty then
          (p.1, (⟨p.2.typeName, p.2.cppType, p.2.entries ++ [(varname, v)]⟩ :
                 VarMap))
        else p)
    | none => env.varMaps ++ [(ty, ⟨ty, ty, [(varname, v)]⟩)]
  ⟨env.types ++ [(varname, ty)], vms, env.concreteToFactory, env.debug⟩

/-- Whether a character is a decimal digit. -/
def isDigitCh (c : Char) : Bool :=
  decide (48 ≤ c.toNat ∧ c.toNat ≤ 57)

/-- Accumulate a decimal number from a digit list. -/
def digitsToNat : List Char → Nat → Option Nat
  | [], acc => some acc
  | c :: r, acc =>
    if isDigitCh c then digitsToNat r (acc * 10 + (c.toNat - 48)) else none

/-- Parse a (possibly negative) decimal integer literal, the model of
    `atoi` on a NUMBER token. -/
def strToIntM (s : String) : Option Int :=
  match s.toList with
  | [] => none
  | '-' :: r =>
    match r with
    | [] => none
    | _ => (digitsToNat r 0).map (fun n => -(n : Int))
  | l => (digitsToNat l 0).map (fun n => (n : Int))

/-- Parse one primitive literal token as the declared type tag.  Modelled
    from the spec (section 4.4): `bool` is the reserved word `true` or
    `false`; `int` is a NUMBER parseable as an integer; `double` is any
    NUMBER; `string` is a STRING token. -/
def parseLit (ty : String) (t : Tok) : Option Value :=
  if ty = "bool" then
    if t.kind = TokKind.reserved ∧ t.text = "true" then some (Value.vBool true)
    else if t.kind = TokKind.reserved ∧ t.text = "false" then
      some (Value.vBool false)
    else none
  else if ty = "int" then
    if t.kind = TokKind.num then
      match strToIntM t.text with
      | some n => some (Value.vInt n)
      | none => none
    else none
  else if ty = "double" then
    if t.kind = TokKind.num then some (Value.vDouble t.text) else none
  else if ty = "string" then
    if t.kind = TokKind.str then some (Value.vStr t.text) else none
  else none

/-- Modelled from the spec: `Environment::ReadAndSet` (sections 4.3 and
    4.4), whose implementation file is not part of this source tree.  It
    fails if the name already exists; a value that is an IDENTIFIER not
    followed by `'('` is a variable reference, substituted and type-checked
    against the declared tag; otherwise the next token is parsed as a
    primitive literal of the declared tag.  Nested object and vector values
    are outside the modelled fragment and fail the parse. -/
def specReadAndSet : RasFn := fun varname ty toks env =>
  if EnvI.Defined env varname then .error ⟨RasKind.varExists, 0⟩
  else
    match toks with
    | [] => .error ⟨RasKind.parseFail, 0⟩
    | t :: rest =>
      if t.kind = TokKind.ident ∧ ((rest.head?.map Tok.text) ≠ some "(") then
        match lookupA env.types t.text with
        | none => .error ⟨RasKind.parseFail, t.start⟩
        | some vt =>
          if vt = ty then
            match EnvI.GetVarMapForType env vt with
            | none => .error ⟨RasKind.envSync, t.start⟩
            | some vm =>
              match lookupA vm.entries t.text with
              | none => .error ⟨RasKind.envSync, t.start⟩
              | some v => .ok (envSetVar env varname ty v, 1)
          else .error ⟨RasKind.refMismatch, t.start⟩
      else
        match parseLit ty t with
        | some v => .ok (envSetVar env varname ty v, 1)
        | none => .error ⟨RasKind.parseFail, t.start⟩

/-- A primitive literal in a rendered argument list. -/
inductive PrimLit where
  | pB (b : Bool)
  | pI (n : Int)
  | pS (s : String)
deriving DecidableEq, Repr

/-- The token a primitive literal lexes to (offsets are irrelevant to
    control flow and set to zero). -/
def litTok : PrimLit → Tok
  | .pB true => ⟨TokKind.reserved, "true", 0, 0⟩
  | .pB false => ⟨TokKind.reserved, "false", 0, 0⟩
  | .pI n => ⟨TokKind.num, toString n, 0, 0⟩
  | .pS s => ⟨TokKind.str, s, 0, 0⟩

/-- Tokens of one named argument `name(lit)` followed by a comma (the
    grammar allows a trailing comma, so rendering one after every argument
    is well-formed). -/
def renderArg (a : String × PrimLit) : List Tok :=
  [⟨TokKind.ident, a.1, 0, 0⟩, ⟨TokKind.punct, "(", 0, 0⟩, litTok a.2,
   ⟨TokKind.punct, ")", 0, 0⟩, ⟨TokKind.punct, ",", 0, 0⟩]

/-- Tokens of a whole argument list. -/
def renderArgs : List (String × PrimLit) → List Tok
  | [] => []
  | a :: r => renderArg a ++ renderArgs r

/-- Tokens of a whole invocation `Ty(arg1(v1), arg2(v2), ...,)`. -/
def renderInvocation (ty : String) (args : List (String × PrimLit)) :
    List Tok :=
  ⟨TokKind.ident, ty, 0, 0⟩ :: ⟨TokKind.punct, "(", 0, 0⟩ ::
    (renderArgs args ++ [⟨TokKind.punct, ")", 0, 0⟩])

/-- Whether some parameter name appears twice in an argument list. -/
def dupNames : List (String × PrimLit) → Bool
  | [] => false
  | a :: r => (r.any (fun b => b.1 = a.1)) || dupNames r

/-- Whether an `Except` result is an error. -/
def isErrB {α β : Type} : Except α β → Bool
  | .error _ => true
  | .ok _ => false

/-- Extract the success value of a `createOrDie` run, with a default. -/
def codGet (r : Except Fatal CreateSuccess) (d : CreateSuccess) :
    CreateSuccess :=
  match r with
  | .ok s => s
  | .error _ => d

/-- Environment well-formedness, decidably: every name in `types_` has an
    entry in the `VarMap` stored under its tag (the invariant the source
    calls "types_ and var_map_ ... in sync"). -/
def wfEnvB (e : EnvI) : Bool :=
  e.types.all (fun p =>
    match lookupA e.varMaps p.2 with
    | some vm => (lookupA vm.entries p.1).isSome
    | none => false)

/- Concrete fixtures used by witnesses and counterexamples: the spec's
   running example, abstract type Animal with concrete type Cow holding a
   required string member `name` and an optional int temporary `age`. -/

/-- The Cow parameter list: `name` (string, member, required) and `age`
    (int, temporary, optional). -/
def cowParams : List Param :=
  [⟨"name", "string", true, true⟩, ⟨"age", "int", false, false⟩]

/-- The registered Cow constructor. -/
def cowCtor : Ctor := ⟨0, cowParams⟩

/-- A constructor table with Cow registered for the Animal factory. -/
def cowTbl : List (String × Ctor) := [("Cow", cowCtor)]

/-- Build a tokenizer state over a source string. -/
def mkSt (src : String) (toks : List Tok) : TokState := ⟨src.toList, toks, 0⟩

/-- Tokens of `Cow(age(5))` with their byte offsets. -/
def cowMissingToks : List Tok :=
  [⟨TokKind.ident, "Cow", 0, 3⟩, ⟨TokKind.punct, "(", 3, 4⟩,
   ⟨TokKind.ident, "age", 4, 7⟩, ⟨TokKind.punct, "(", 7, 8⟩,
   ⟨TokKind.num, "5", 8, 9⟩, ⟨TokKind.punct, ")", 9, 10⟩,
   ⟨TokKind.punct, ")", 10, 11⟩]

/-- Tokens of `Cow(name("Bessie"))` with their byte offsets. -/
def cowOkToks : List Tok :=
  [⟨TokKind.ident, "Cow", 0, 3⟩, ⟨TokKind.punct, "(", 3, 4⟩,
   ⟨TokKind.ident, "name", 4, 8⟩, ⟨TokKind.punct, "(", 8, 9⟩,
   ⟨TokKind.str, "Bessie", 9, 17⟩, ⟨TokKind.punct, ")", 17, 18⟩,
   ⟨TokKind.punct, ")", 18, 19⟩]

/-- A default success record for `codGet`. -/
def defaultCS : CreateSuccess :=
  ⟨true, "", ⟨[], [], 0⟩, emptyEnvI, emptyEnvI, none, [], [], 0, none⟩

/-- A small environment with one int variable, used by counterexamples. -/
def envC3 : EnvI :=
  ⟨[("x", "int")], [("int", ⟨"int", "int", [("x", Value.vInt 3)]⟩)], [], 0⟩

/-- A tokenizer state holding `Cow(name("Bessie"))`. -/
def stOk : TokState := mkSt "Cow(name(\"Bessie\"))" cowOkToks

/-- A tokenizer state holding `Cow(age(5))`. -/
def stMissing : TokState := mkSt "Cow(age(5))" cowMissingToks

/-- The fatal error produced for `Cow(age(5))`: required member `name`
    missing, reported at stream position 11 although the closing `')'`
    starts at offset 10. -/
def missingFatal : Fatal :=
  ⟨FatalKind.requiredMissing, 11, some ⟨TokKind.punct, ")", 10, 11⟩⟩

theorem lookupA_append {α : Type} (l m : List (String × α)) (k : String) :
    lookupA (l ++ m) k =
      match lookupA l k with
      | some v => some v
      | none => lookupA m k := by
  induction l with
  | nil => simp [lookupA]
  | cons p r ih =>
    obtain ⟨k2, v⟩ := p
    simp only [List.cons_append, lookupA]
    split
    · rfl
    · exact ih

theorem lookupA_mem {α : Type} {l : List (String × α)} {k : String} {v : α}
    (h : lookupA l k = some v) : (k, v) ∈ l := by
  induction l with
  | nil => simp [lookupA] at h
  | cons p r ih =>
    obtain ⟨k2, w⟩ := p
    simp only [lookupA] at h
    split at h
    · next heq =>
      cases h
      subst heq
      exact List.mem_cons_self _ _
    · exact List.mem_cons_of_mem _ (ih h)

theorem copyVm_id (vm : VarMap) : VarMap.copyVm vm = vm := rfl

theorem EnvI.Copy_eq (e : EnvI) : EnvI.Copy e = e := by
  cases e
  simp [EnvI.Copy, copyVm_id]

theorem wf_find {e : EnvI} {vn t : String} (hw : wfEnvB e = true)
    (h : lookupA e.types vn = some t) :
    ∃ vm, lookupA e.varMaps t = some vm ∧
      (lookupA vm.entries vn).isSome = true := by
  have hm := lookupA_mem h
  have hall := (List.all_eq_true.mp hw) (vn, t) hm
  revert hall
  cases hvm : lookupA e.varMaps t with
  | none => intro hall; simp at hall
  | some vm => intro hall; exact ⟨vm, rfl, hall⟩

/-- Claim C10: for every C++ type `T`, the type-tag mapping satisfies
    `TypeName<vector<T>>().ToString() = TypeName<T>().ToString() ++ "[]"`
    and `TypeName<shared_ptr<T>>().ToString() = TypeName<T>().ToString()`:
    the shared-pointer wrapper is transparent and a vector tag appends
    `"[]"` to its element tag (factory.h lines 201-226). -/
theorem claim_c10 (t : CppType) :
    TypeNameOf (CppType.vec t) = TypeNameOf t ++ "[]" ∧
    TypeNameOf (CppType.sptr t) = TypeNameOf t :=
  ⟨rfl, rfl⟩

/-- Claim C8: registering a second constructor under an already-registered
    concrete-type name keeps the first registration, deletes the second
    (third component of the result), and later `CreateOrDie` calls see the
    unchanged table, hence use the first constructor (factory.h lines
    964-980). -/
theorem claim_c8 (tbl : List (String × Ctor)) (ty : String) (p1 p2 : Ctor)
    (hfresh : lookupA tbl ty = none) :
    FactoryRegister tbl ty p1 = (tbl ++ [(ty, p1)], p1, false) ∧
    FactoryRegister (tbl ++ [(ty, p1)]) ty p2 = (tbl ++ [(ty, p1)], p1, true) ∧
    lookupA (tbl ++ [(ty, p1)]) ty = some p1 ∧
    ∀ (ras : RasFn) (envOpt : Option EnvI) (st : TokState),
      createOrDie ras (FactoryRegister (tbl ++ [(ty, p1)]) ty p2).1 envOpt st =
        createOrDie ras (tbl ++ [(ty, p1)]) envOpt st := by
  have hlk : lookupA (tbl ++ [(ty, p1)]) ty = some p1 := by
    rw [lookupA_append, hfresh]
    simp [lookupA]
  refine ⟨?_, ?_, hlk, ?_⟩
  · simp [FactoryRegister, hfresh]
  · simp [FactoryRegister, hlk]
  · intro ras envOpt st
    simp [FactoryRegister, hlk]

/-- Witness for claim C8 at a concrete input: registering `Cow` twice on an
    empty table. -/
theorem claim_c8_witness :
    FactoryRegister [] "Cow" cowCtor = ([("Cow", cowCtor)], cowCtor, false) ∧
    FactoryRegister [("Cow", cowCtor)] "Cow" ⟨1, []⟩ =
      ([("Cow", cowCtor)], cowCtor, true) ∧
    lookupA [("Cow", cowCtor)] "Cow" = some cowCtor ∧
    ∀ (ras : RasFn) (envOpt : Option EnvI) (st : TokState),
      createOrDie ras (FactoryRegister [("Cow", cowCtor)] "Cow" ⟨1, []⟩).1
          envOpt st =
        createOrDie ras [("Cow", cowCtor)] envOpt st :=
  claim_c8 [] "Cow" cowCtor ⟨1, []⟩ (by decide)

/-- Claim C6 (code bug): for a name that is not defined, `GetType` does not
    fail; the error branch is an empty placeholder (`// Error or warning.`)
    and the code falls through to dereference the end iterator (undefined
    behavior, `derefEnd`).  For every defined name it returns the stored
    type tag, as the claim states. -/
theorem claim_c6 :
    EnvI.GetType envC3 "undefined_name" = GetTypeOut.derefEnd ∧
    ∀ (e : EnvI) (n t : String), lookupA e.types n = some t →
      EnvI.GetType e n = GetTypeOut.ok t := by
  constructor
  · decide
  · intro e n t h
    simp [EnvI.GetType, h]

/-- Witness for claim C6: the defined-name half evaluated on `envC3`. -/
theorem claim_c6_witness : EnvI.GetType envC3 "x" = GetTypeOut.ok "int" :=
  claim_c6.2 envC3 "x" "int" (by decide)

/-- Claim C3 (amended): in a consistent environment, `Get` raises no fatal
    error, returns true and writes the slot exactly when the name exists
    and the slot's type matches the `VarMap` stored under the name's type
    tag; a missing name yields false with a diagnostic only at debug level
    at least 1; a slot-type mismatch yields false with a diagnostic that is
    emitted unconditionally (environment-impl.h lines 175-223; the
    `debug_ >= 1` guard covers only the missing-name message). -/
theorem claim_c3 (e : EnvI) (vn slotType : String) (hw : wfEnvB e = true) :
    (EnvI.Get e vn slotType).fatal = false ∧
    ((EnvI.Get e vn slotType).ret = true ↔
      ∃ t vm, lookupA e.types vn = some t ∧ lookupA e.varMaps t = some vm ∧
        vm.cppType = slotType) ∧
    ((EnvI.Get e vn slotType).written.isSome = (EnvI.Get e vn slotType).ret) ∧
    (lookupA e.types vn = none →
      ((EnvI.Get e vn slotType).stderrMsgs ≠ [] ↔ e.debug ≥ 1)) ∧
    (∀ t vm, lookupA e.types vn = some t → lookupA e.varMaps t = some vm →
      vm.cppType ≠ slotType → (EnvI.Get e vn slotType).stderrMsgs ≠ []) := by
  cases hty : lookupA e.types vn with
  | none =>
    have hg : EnvI.Get e vn slotType = ⟨false, false, none,
        if e.debug ≥ 1 then
          ["Environment::Get: error: no value for variable"]
        else []⟩ := by
      simp [EnvI.Get, hty]
    refine ⟨by simp [hg], ?_, by simp [hg], ?_, ?_⟩
    · rw [hg]
      constructor
      · intro h; exact absurd h (by simp)
      · rintro ⟨t, vm, h1, -, -⟩
        exact Option.noConfusion h1
    · intro _
      rw [hg]
      by_cases hd : e.debug ≥ 1
      · simp [hd]
      · simp [hd]
    · intro t vm h1 _ _
      exact Option.noConfusion h1
  | some t0 =>
    obtain ⟨vm0, hvm0, hent0⟩ := wf_find hw hty
    by_cases hcpp : vm0.cppType = slotType
    · cases hv : lookupA vm0.entries vn with
      | none => rw [hv] at hent0; simp at hent0
      | some v =>
        have hg : EnvI.Get e vn slotType = ⟨false, true, some v, []⟩ := by
          simp [EnvI.Get, hty, hvm0, hcpp, hv]
        refine ⟨by simp [hg], ?_, by simp [hg], ?_, ?_⟩
        · rw [hg]
          exact ⟨fun _ => ⟨t0, vm0, rfl, hvm0, hcpp⟩, fun _ => rfl⟩
        · intro habs
          exact Option.noConfusion habs
        · intro t vm h1 h2 h3
          injection h1 with h1e
          subst h1e
          rw [hvm0] at h2
          injection h2 with h2e
          subst h2e
          exact absurd hcpp h3
    · have hg : EnvI.Get e vn slotType = ⟨false, false, none,
          ["Environment::Get: error: no value for variable of wrong type"]⟩ := by
        simp [EnvI.Get, hty, hvm0, hcpp]
      refine ⟨by simp [hg], ?_, by simp [hg], ?_, ?_⟩
      · rw [hg]
        constructor
        · intro h; exact absurd h (by simp)
        · rintro ⟨t, vm, h1, h2, h3⟩
          injection h1 with h1e
          subst h1e
          rw [hvm0] at h2
          injection h2 with h2e
          subst h2e
          exact absurd h3 hcpp
      · intro habs
        exact Option.noConfusion habs
      · intro t vm h1 h2 h3
        rw [hg]
        simp

/-- Counterexample for claim C3 as stated: with debug level 0, a typed
    `Get` with the wrong slot type still prints its mismatch diagnostic,
    so the diagnostic is not "emitted only at debug level at least 1". -/
theorem claim_c3_counterexample :
    envC3.debug = 0 ∧
    (EnvI.Get envC3 "x" "bool").ret = false ∧
    (EnvI.Get envC3 "x" "bool").fatal = false ∧
    (EnvI.Get envC3 "x" "bool").stderrMsgs ≠ [] := by decide

/-- Witness for claim C3 at a concrete input: a matching typed read of
    `x` as `int` from `envC3`. -/
theorem claim_c3_witness :
    (EnvI.Get envC3 "x" "int").fatal = false ∧
    ((EnvI.Get envC3 "x" "int").ret = true ↔
      ∃ t vm, lookupA envC3.types "x" = some t ∧
        lookupA envC3.varMaps t = some vm ∧ vm.cppType = "int") :=
  ⟨(claim_c3 envC3 "x" "int" (by decide)).1,
   (claim_c3 envC3 "x" "int" (by decide)).2.1⟩

theorem tellg_next {stC : TokState} {t : Tok} {tail : List Tok}
    (heq : stC.toks = t :: tail) :
    TokState.tellg (TokState.next stC) = t.stop := by
  obtain ⟨a, b, c⟩ := stC
  dsimp only at heq
  subst heq
  rfl

theorem finishCreate_ok (src : List Char) (start : Nat) (ty : String)
    (envOpt : Option EnvI) (envCopy env2 : EnvI) (inits2 : List PState)
    (stC : TokState) (s : CreateSuccess)
    (h : finishCreate src start ty envOpt envCopy env2 inits2 stC =
      Except.ok s) :
    ∃ closeT tail, stC.toks = closeT :: tail ∧ closeT.text = ")" ∧
      TokState.tellg (TokState.next stC) = closeT.stop ∧
      (∀ ps ∈ inits2, ps.p.required = true → ps.count ≠ 0) ∧
      s = ⟨false, ty, TokState.next stC, envCopy, env2, envOpt,
           [(env2, srcSub src start closeT.stop)], inits2, start,
           some closeT⟩ := by
  unfold finishCreate at h
  cases htoks : stC.toks with
  | nil =>
    rw [htoks] at h
    dsimp only at h
    exact Except.noConfusion h
  | cons closeT tail =>
    rw [htoks] at h
    dsimp only at h
    by_cases htxt : closeT.text = ")"
    · rw [if_pos htxt] at h
      by_cases hfind :
          (inits2.find? (fun ps => ps.p.required && ps.count == 0)).isSome
            = true
      · rw [if_pos hfind] at h
        exact Except.noConfusion h
      · rw [if_neg hfind] at h
        injection h with he
        refine ⟨closeT, tail, rfl, htxt, tellg_next htoks, ?_, ?_⟩
        · intro ps hps hreq
          have hnone : List.find? (fun q => q.p.required && q.count == 0)
              inits2 = none := by
            cases hcase : List.find? (fun q => q.p.required && q.count == 0)
                inits2 with
            | none => rfl
            | some a => rw [hcase] at hfind; simp at hfind
          rw [List.find?_eq_none] at hnone
          have hp := hnone ps hps
          simp [hreq] at hp
          exact hp
        · rw [← he, tellg_next htoks]
    · rw [if_neg htxt] at h
      exact Except.noConfusion h

theorem finishCreate_error_reqMissing (src : List Char) (start : Nat)
    (ty : String) (envOpt : Option EnvI) (envCopy env2 : EnvI)
    (inits2 : List PState) (stC : TokState) (f : Fatal)
    (h : finishCreate src start ty envOpt envCopy env2 inits2 stC =
      Except.error f)
    (hk : f.kind = FatalKind.requiredMissing) :
    ∃ t, f.closeTok = some t ∧ t.text = ")" ∧ f.pos = t.stop := by
  unfold finishCreate at h
  cases htoks : stC.toks with
  | nil =>
    rw [htoks] at h
    dsimp only at h
    injection h with he
    rw [← he] at hk
    exact absurd hk (by simp)
  | cons closeT tail =>
    rw [htoks] at h
    dsimp only at h
    by_cases htxt : closeT.text = ")"
    · rw [if_pos htxt] at h
      by_cases hfind :
          (inits2.find? (fun ps => ps.p.required && ps.count == 0)).isSome
            = true
      · rw [if_pos hfind] at h
        injection h with he
        rw [← he]
        exact ⟨closeT, rfl, htxt, tellg_next htoks⟩
      · rw [if_neg hfind] at h
        exact Except.noConfusion h
    · rw [if_neg htxt] at h
      injection h with he
      rw [← he] at hk
      exact absurd hk (by simp)

theorem TMIInit_error_kind (ras : RasFn) (env : EnvI) (toks : List Tok)
    (ps : PState) (f : Fatal) (h : TMIInit ras env toks ps = Except.error f) :
    f.kind = FatalKind.rasFail := by
  unfold TMIInit at h
  repeat' split at h
  all_goals
    first
    | exact Except.noConfusion h
    | (injection h with he; rw [← he])

theorem parseArgs_error_kind (ras : RasFn) (fuel : Nat) (env : EnvI)
    (inits : List PState) (st : TokState) (f : Fatal)
    (h : parseArgs ras fuel env inits st = Except.error f) :
    f.kind ≠ FatalKind.requiredMissing := by
  induction fuel generalizing env inits st f with
  | zero =>
    unfold parseArgs at h
    injection h with he
    rw [← he]
    simp
  | succ n ih =>
    unfold parseArgs at h
    simp only [] at h
    repeat' split at h
    all_goals
      first
      | exact Except.noConfusion h
      | (injection h with he; rw [← he]; simp; done)
      | exact ih _ _ _ _ h
      | (rename_i f0 heq
         injection h with he
         rw [← he]
         rw [TMIInit_error_kind _ _ _ _ _ heq]
         simp)

/-- Claim C1: `CreateOrDie` called with a caller environment works entirely
    inside a deep copy of it made before parsing begins (factory.h lines
    762-764): the caller's environment after the call is the one passed in,
    the child environment starts as `env->Copy()` (which equals the
    original, sharing no mutable state), and the environment handed to
    `PostInit` is that same threaded copy after all named-argument writes
    (in the model, every `Init` call and the `PostInit` call receive the
    copy, never the caller's environment). -/
theorem claim_c1 (ras : RasFn) (tbl : List (String × Ctor)) (env : EnvI)
    (st : TokState) (s : CreateSuccess)
    (h : createOrDie ras tbl (some env) st = Except.ok s) :
    s.callerEnvAfter = some env ∧
    s.childEnvStart = EnvI.Copy env ∧
    EnvI.Copy env = env ∧
    s.postInitCalls.map Prod.fst =
      (if s.isNull then [] else [s.childEnvFinal]) := by
  unfold createOrDie at h
  simp only [envCopyOf] at h
  repeat' split at h
  all_goals
    first
    | exact Except.noConfusion h
    | (injection h with he
       subst he
       exact ⟨rfl, rfl, EnvI.Copy_eq env, rfl⟩)
    | (obtain ⟨cT, tl, -, -, -, -, hs⟩ := finishCreate_ok _ _ _ _ _ _ _ _ _ h
       subst hs
       exact ⟨rfl, rfl, EnvI.Copy_eq env, rfl⟩)

/-- Witness for claim C1: constructing `Cow(name("Bessie"))` from an empty
    caller environment leaves the caller environment unchanged. -/
theorem claim_c1_witness :
    (codGet (createOrDie specReadAndSet cowTbl (some emptyEnvI) stOk)
      defaultCS).callerEnvAfter = some emptyEnvI :=
  (claim_c1 specReadAndSet cowTbl emptyEnvI stOk
    (codGet (createOrDie specReadAndSet cowTbl (some emptyEnvI) stOk)
      defaultCS) (by rfl)).1

/-- Claim C2 (amended): if a required member was never initialized when the
    closing `')'` of the argument list has been consumed, `CreateOrDie`
    fails with a required-parameter-missing error whose reported position
    is `st.tellg()`, the offset just past the closing `')'` (not the
    starting offset of the `')'` itself); otherwise every required member
    of a returned instance has been initialized (factory.h lines 884-901). -/
theorem claim_c2 (ras : RasFn) (tbl : List (String × Ctor))
    (envOpt : Option EnvI) (st : TokState) :
    (∀ f, createOrDie ras tbl envOpt st = Except.error f →
      f.kind = FatalKind.requiredMissing →
      ∃ t, f.closeTok = some t ∧ t.text = ")" ∧ f.pos = t.stop) ∧
    (∀ s, createOrDie ras tbl envOpt st = Except.ok s →
      ∀ ps ∈ s.finalInits, ps.p.required = true → ps.count ≠ 0) := by
  constructor
  · intro f h hk
    unfold createOrDie at h
    simp only [envCopyOf] at h
    repeat' split at h
    all_goals
      first
      | exact Except.noConfusion h
      | (injection h with he; rw [← he] at hk; simp at hk)
      | exact finishCreate_error_reqMissing _ _ _ _ _ _ _ _ _ h hk
      | (rename_i f0 heq
         injection h with he
         rw [← he] at hk
         exact absurd hk (parseArgs_error_kind _ _ _ _ _ _ heq))
  · intro s h
    unfold createOrDie at h
    simp only [envCopyOf] at h
    repeat' split at h
    all_goals
      first
      | exact Except.noConfusion h
      | (injection h with he
         rw [← he]
         intro ps hps
         simp at hps)
      | (obtain ⟨cT, tl, -, -, -, hreq, hs⟩ :=
           finishCreate_ok _ _ _ _ _ _ _ _ _ h
         subst hs
         exact hreq)

/-- Counterexample for claim C2 as stated: for `Cow(age(5))` the closing
    `')'` starts at offset 10, but the fatal required-parameter-missing
    error reports stream position 11 (the offset just past it), so the
    reported position is not "the offset of the closing `')'`". -/
theorem claim_c2_counterexample :
    createOrDie specReadAndSet cowTbl (some emptyEnvI) stMissing =
      Except.error missingFatal ∧
    missingFatal.closeTok = some ⟨TokKind.punct, ")", 10, 11⟩ ∧
    missingFatal.pos = 11 ∧ (11 : Nat) ≠ 10 :=
  ⟨by rfl, rfl, rfl, by decide⟩

/-- Witness for claim C2: the amended statement applied to `Cow(age(5))`. -/
theorem claim_c2_witness :
    ∃ t, missingFatal.closeTok = some t ∧ t.text = ")" ∧
      missingFatal.pos = t.stop :=
  (claim_c2 specReadAndSet cowTbl (some emptyEnvI) stMissing).1 missingFatal
    (by rfl) (by rfl)

/-- Claim C4: a successful non-null construction invokes `PostInit` exactly
    once, after the argument loop and the required check, passing the
    threaded environment copy and the exact substring of the full input
    from the starting offset of the concrete-type identifier to the offset
    just past the closing `')'` (factory.h lines 765 and 903-911). -/
theorem claim_c4 (ras : RasFn) (tbl : List (String × Ctor))
    (envOpt : Option EnvI) (st : TokState) (s : CreateSuccess)
    (h : createOrDie ras tbl envOpt st = Except.ok s)
    (hn : s.isNull = false) :
    ∃ t, s.closeTok = some t ∧ t.text = ")" ∧
      s.startPos = TokState.peekTokenStart st ∧
      s.finalSt.lastEnd = t.stop ∧
      s.postInitCalls = [(s.childEnvFinal,
        srcSub st.src (TokState.peekTokenStart st) t.stop)] := by
  unfold createOrDie at h
  simp only [envCopyOf] at h
  repeat' split at h
  all_goals
    first
    | exact Except.noConfusion h
    | (injection h with he
       rw [← he] at hn
       simp at hn)
    | (obtain ⟨cT, tl, htoks, htxt, htell, -, hs⟩ :=
         finishCreate_ok _ _ _ _ _ _ _ _ _ h
       subst hs
       exact ⟨cT, rfl, htxt, rfl, htell, rfl⟩)

/-- Witness for claim C4: the `PostInit` invocation for
    `Cow(name("Bessie"))` receives the whole invocation text. -/
theorem claim_c4_witness :
    ∃ t, (codGet (createOrDie specReadAndSet cowTbl (some emptyEnvI) stOk)
        defaultCS).closeTok = some t ∧ t.text = ")" ∧
      (codGet (createOrDie specReadAndSet cowTbl (some emptyEnvI) stOk)
        defaultCS).startPos = TokState.peekTokenStart stOk ∧
      (codGet (createOrDie specReadAndSet cowTbl (some emptyEnvI) stOk)
        defaultCS).finalSt.lastEnd = t.stop ∧
      (codGet (createOrDie specReadAndSet cowTbl (some emptyEnvI) stOk)
        defaultCS).postInitCalls =
        [((codGet (createOrDie specReadAndSet cowTbl (some emptyEnvI) stOk)
            defaultCS).childEnvFinal,
          srcSub stOk.src (TokState.peekTokenStart stOk) t.stop)] :=
  claim_c4 specReadAndSet cowTbl (some emptyEnvI) stOk
    (codGet (createOrDie specReadAndSet cowTbl (some emptyEnvI) stOk)
      defaultCS) (by rfl) (by rfl)

/-- Claim C7: when the next token is the reserved word `nullptr` or `NULL`,
    `CreateOrDie` consumes exactly that one token and returns the null
    object pointer of the abstract type, with no `PostInit` call and no
    change to the caller's environment; both reserved words take the very
    same branch and yield the same null result (factory.h lines 766-772). -/
theorem claim_c7 (ras : RasFn) (tbl : List (String × Ctor))
    (envOpt : Option EnvI) (src : List Char) (rest : List Tok) (le : Nat)
    (t : Tok) (hk : t.kind = TokKind.reserved)
    (ht : t.text = "nullptr" ∨ t.text = "NULL") :
    createOrDie ras tbl envOpt ⟨src, t :: rest, le⟩ =
      Except.ok ⟨true, "", ⟨src, rest, t.stop⟩, envCopyOf envOpt,
        envCopyOf envOpt, envOpt, [], [], t.start, none⟩ := by
  cases ht with
  | inl hts =>
    simp [createOrDie, TokState.peekKind, TokState.peekStr,
      TokState.peekTokenStart, TokState.next, hk, hts]
  | inr hts =>
    simp [createOrDie, TokState.peekKind, TokState.peekStr,
      TokState.peekTokenStart, TokState.next, hk, hts]

/-- Witness for claim C7: both `nullptr` and `NULL` as the sole token give
    the null result. -/
theorem claim_c7_witness :
    createOrDie specReadAndSet cowTbl (some emptyEnvI)
        ⟨[], [⟨TokKind.reserved, "nullptr", 0, 7⟩], 0⟩ =
      Except.ok ⟨true, "", ⟨[], [], 7⟩, envCopyOf (some emptyEnvI),
        envCopyOf (some emptyEnvI), some emptyEnvI, [], [], 0, none⟩ ∧
    createOrDie specReadAndSet cowTbl (some emptyEnvI)
        ⟨[], [⟨TokKind.reserved, "NULL", 0, 4⟩], 0⟩ =
      Except.ok ⟨true, "", ⟨[], [], 4⟩, envCopyOf (some emptyEnvI),
        envCopyOf (some emptyEnvI), some emptyEnvI, [], [], 0, none⟩ :=
  ⟨claim_c7 specReadAndSet cowTbl (some emptyEnvI) [] [] 0
      ⟨TokKind.reserved, "nullptr", 0, 7⟩ rfl (Or.inl rfl),
   claim_c7 specReadAndSet cowTbl (some emptyEnvI) [] [] 0
      ⟨TokKind.reserved, "NULL", 0, 4⟩ rfl (Or.inr rfl)⟩

/-- Claim C9: in `TypedMemberInitializer<T>::Init` (factory.h lines
    309-326), after `ReadAndSet` succeeds, a parameter with a null member
    pointer (a temporary) is counted as initialized immediately, whereas a
    parameter with a non-null member pointer is counted as initialized only
    if the typed `VarMap` downcast succeeds and the value is retrieved into
    the member; if the downcast or the retrieval fails, `Init` returns
    normally (no error) and the counter and member are left unchanged. -/
theorem claim_c9 (ras : RasFn) (env : EnvI) (toks : List Tok) (ps : PState)
    (env2 : EnvI) (used : Nat) (ps2 : PState)
    (h : TMIInit ras env toks ps = Except.ok (env2, used, ps2)) :
    ras ps.p.name ps.p.typeTag toks env = Except.ok (env2, used) ∧
    (ps.p.hasMember = false → ps2 = ⟨ps.p, ps.count + 1, ps.memberVal⟩) ∧
    (ps.p.hasMember = true →
      ((∃ vm v, EnvI.GetVarMap env2 ps.p.name = some vm ∧
          vm.cppType = ps.p.typeTag ∧
          lookupA vm.entries ps.p.name = some v) →
        ps2 = ⟨ps.p, ps.count + 1,
          some ((EnvI.GetVarMap env2 ps.p.name).elim (Value.vInt 0)
            (fun vm => (lookupA vm.entries ps.p.name).getD (Value.vInt 0)))⟩) ∧
      ((∀ vm, EnvI.GetVarMap env2 ps.p.name = some vm →
          vm.cppType = ps.p.typeTag →
          lookupA vm.entries ps.p.name = none) →
        ps2 = ps)) := by
  unfold TMIInit at h
  cases hras : ras ps.p.name ps.p.typeTag toks env with
  | error re =>
    rw [hras] at h
    exact Except.noConfusion h
  | ok r =>
    obtain ⟨e2, u⟩ := r
    rw [hras] at h
    dsimp only at h
    by_cases hm : ps.p.hasMember = true
    · rw [if_pos hm] at h
      cases hvm : EnvI.GetVarMap e2 ps.p.name with
      | none =>
        rw [hvm] at h
        dsimp only at h
        injection h with he
        injection he with he1 he2
        injection he2 with he3 he4
        subst he1; subst he3; subst he4
        refine ⟨rfl, ?_, ?_⟩
        · intro hmf; rw [hmf] at hm; exact absurd hm (by simp)
        · intro _
          constructor
          · rintro ⟨vm, v, hvm2, -, -⟩
            rw [hvm] at hvm2
            exact Option.noConfusion hvm2
          · intro _; rfl
      | some vm =>
        rw [hvm] at h
        dsimp only at h
        by_cases hcpp : vm.cppType = ps.p.typeTag
        · rw [if_pos hcpp] at h
          cases hent : lookupA vm.entries ps.p.name with
          | none =>
            rw [hent] at h
            dsimp only at h
            injection h with he
            injection he with he1 he2
            injection he2 with he3 he4
            subst he1; subst he3; subst he4
            refine ⟨rfl, ?_, ?_⟩
            · intro hmf; rw [hmf] at hm; exact absurd hm (by simp)
            · intro _
              constructor
              · rintro ⟨vm2, v, hvm2, -, hent2⟩
                rw [hvm] at hvm2
                injection hvm2 with hvme
                subst hvme
                rw [hent] at hent2
                exact Option.noConfusion hent2
              · intro _; rfl
          | some v =>
            rw [hent] at h
            dsimp only at h
            injection h with he
            injection he with he1 he2
            injection he2 with he3 he4
            subst he1; subst he3; subst he4
            refine ⟨rfl, ?_, ?_⟩
            · intro hmf; rw [hmf] at hm; exact absurd hm (by simp)
            · intro _
              constructor
              · intro _
                simp [hvm, hent]
              · intro hfail
                have := hfail vm hvm hcpp
                rw [hent] at this
                exact Option.noConfusion this
        · rw [if_neg hcpp] at h
          injection h with he
          injection he with he1 he2
          injection he2 with he3 he4
          subst he1; subst he3; subst he4
          refine ⟨rfl, ?_, ?_⟩
          · intro hmf; rw [hmf] at hm; exact absurd hm (by simp)
          · intro _
            constructor
            · rintro ⟨vm2, v, hvm2, hcpp2, -⟩
              rw [hvm] at hvm2
              injection hvm2 with hvme
              subst hvme
              exact absurd hcpp2 hcpp
            · intro _; rfl
    · rw [if_neg hm] at h
      injection h with he
      injection he with he1 he2
      injection he2 with he3 he4
      subst he1; subst he3; subst he4
      refine ⟨rfl, ?_, ?_⟩
      · intro _; rfl
      · intro hmt; exact absurd hmt hm

/-- Witness for claim C9: initializing the required string member `name`
    from the token `"Bessie"` calls `ReadAndSet` and then retrieves the
    typed value. -/
theorem claim_c9_witness :
    specReadAndSet "name" "string" [⟨TokKind.str, "Bessie", 9, 17⟩]
        emptyEnvI =
      Except.ok (⟨[("name", "string")],
        [("string", ⟨"string", "string", [("name", Value.vStr "Bessie")]⟩)],
        [], 0⟩, 1) :=
  (claim_c9 specReadAndSet emptyEnvI [⟨TokKind.str, "Bessie", 9, 17⟩]
    ⟨⟨"name", "string", true, true⟩, 0, none⟩
    ⟨[("name", "string")],
      [("string", ⟨"string", "string", [("name", Value.vStr "Bessie")]⟩)],
      [], 0⟩ 1
    ⟨⟨"name", "string", true, true⟩, 1, some (Value.vStr "Bessie")⟩
    (by rfl)).1

theorem defined_envSetVar_self (env : EnvI) (vn ty : String) (v : Value) :
    EnvI.Defined (envSetVar env vn ty v) vn = true := by
  unfold EnvI.Defined envSetVar
  dsimp only
  rw [lookupA_append]
  cases h : lookupA env.types vn with
  | none => simp [lookupA]
  | some w => simp

theorem defined_envSetVar_mono (env : EnvI) (vn ty x : String) (v : Value)
    (h : EnvI.Defined env x = true) :
    EnvI.Defined (envSetVar env vn ty v) x = true := by
  unfold EnvI.Defined at h ⊢
  unfold envSetVar
  dsimp only
  rw [lookupA_append]
  cases hx : lookupA env.types x with
  | none => rw [hx] at h; simp at h
  | some w => simp

theorem specRAS_ok_facts (vn ty : String) (toks : List Tok) (env env2 : EnvI)
    (used : Nat)
    (h : specReadAndSet vn ty toks env = Except.ok (env2, used)) :
    used = 1 ∧ EnvI.Defined env2 vn = true ∧
    ∀ x, EnvI.Defined env x = true → EnvI.Defined env2 x = true := by
  unfold specReadAndSet at h
  by_cases hd : EnvI.Defined env vn = true
  · rw [if_pos hd] at h
    exact Except.noConfusion h
  · rw [if_neg hd] at h
    cases toks with
    | nil => exact Except.noConfusion h
    | cons t rest =>
      dsimp only at h
      by_cases hb : (t.kind = TokKind.ident ∧
          ((rest.head?.map Tok.text) ≠ some "("))
      · rw [if_pos hb] at h
        cases h1 : lookupA env.types t.text with
        | none => rw [h1] at h; exact Except.noConfusion h
        | some vt =>
          rw [h1] at h
          dsimp only at h
          by_cases h2 : vt = ty
          · rw [if_pos h2] at h
            cases h3 : EnvI.GetVarMapForType env vt with
            | none => rw [h3] at h; exact Except.noConfusion h
            | some vm =>
              rw [h3] at h
              dsimp only at h
              cases h4 : lookupA vm.entries t.text with
              | none => rw [h4] at h; exact Except.noConfusion h
              | some v =>
                rw [h4] at h
                dsimp only at h
                injection h with he
                injection he with heEnv heUsed
                subst heEnv
                subst heUsed
                exact ⟨rfl, defined_envSetVar_self env vn ty v,
                  fun x hx => defined_envSetVar_mono env vn ty x v hx⟩
          · rw [if_neg h2] at h
            exact Except.noConfusion h
      · rw [if_neg hb] at h
        cases h5 : parseLit ty t with
        | none => rw [h5] at h; exact Except.noConfusion h
        | some v =>
          rw [h5] at h
          dsimp only at h
          injection h with he
          injection he with heEnv heUsed
          subst heEnv
          subst heUsed
          exact ⟨rfl, defined_envSetVar_self env vn ty v,
            fun x hx => defined_envSetVar_mono env vn ty x v hx⟩

theorem specRAS_defined_error (vn ty : String) (toks : List Tok) (env : EnvI)
    (hd : EnvI.Defined env vn = true) :
    specReadAndSet vn ty toks env = Except.error ⟨RasKind.varExists, 0⟩ := by
  unfold specReadAndSet
  rw [if_pos hd]

theorem TMI_specRAS_ok_facts (env : EnvI) (toks : List Tok) (ps : PState)
    (env2 : EnvI) (used : Nat) (ps2 : PState)
    (h : TMIInit specReadAndSet env toks ps = Except.ok (env2, used, ps2)) :
    used = 1 ∧ EnvI.Defined env2 ps.p.name = true ∧
    ∀ x, EnvI.Defined env x = true → EnvI.Defined env2 x = true := by
  unfold TMIInit at h
  cases hras : specReadAndSet ps.p.name ps.p.typeTag toks env with
  | error re => rw [hras] at h; exact Except.noConfusion h
  | ok r =>
    obtain ⟨e2, u⟩ := r
    rw [hras] at h
    dsimp only at h
    have hfacts := specRAS_ok_facts _ _ _ _ _ _ hras
    repeat' split at h
    all_goals
      (injection h with he
       injection he with he1 he2
       injection he2 with he3 he4
       subst he1
       subst he3
       exact hfacts)

theorem TMI_defined_error (env : EnvI) (toks : List Tok) (ps : PState)
    (hd : EnvI.Defined env ps.p.name = true) :
    TMIInit specReadAndSet env toks ps =
      Except.error ⟨FatalKind.rasFail, 0, none⟩ := by
  unfold TMIInit
  rw [specRAS_defined_error _ _ _ _ hd]

theorem parseArgs_member_defined_err :
    ∀ (args : List (String × PrimLit)) (fuel : Nat) (env : EnvI)
      (inits : List PState) (src : List Char) (tail : List Tok) (le : Nat),
      (∀ a ∈ args, a.1 ≠ ")") →
      (∃ a ∈ args, EnvI.Defined env a.1 = true) →
      isErrB (parseArgs specReadAndSet fuel env inits
        ⟨src, renderArgs args ++ tail, le⟩) = true := by
  intro args
  induction args with
  | nil =>
    intro fuel env inits src tail le hn hex
    simp at hex
  | cons a r ih =>
    intro fuel env inits src tail le hn hex
    obtain ⟨an, av⟩ := a
    have han : an ≠ ")" := hn (an, av) (List.mem_cons_self _ _)
    cases fuel with
    | zero => rfl
    | succ n0 =>
      rw [parseArgs]
      simp only [renderArgs, renderArg, List.cons_append, List.nil_append,
        TokState.peekStr, TokState.peekKind, TokState.peekTokenStart,
        TokState.next]
      rw [if_neg han]
      rw [if_neg (fun hc => hc rfl : ¬(TokKind.ident ≠ TokKind.ident))]
      cases hf : findPState inits an with
      | none => rfl
      | some ps =>
        dsimp only
        rw [if_neg (fun hc => hc rfl : ¬(("(" : String) ≠ "("))]
        cases hTM : TMIInit specReadAndSet env
            (litTok av :: ⟨TokKind.punct, ")", 0, 0⟩ ::
              ⟨TokKind.punct, ",", 0, 0⟩ :: (renderArgs r ++ tail)) ps with
        | error f => rfl
        | ok trip =>
          obtain ⟨env2, used, ps2⟩ := trip
          dsimp only
          obtain ⟨hu, hdef, hmono⟩ := TMI_specRAS_ok_facts _ _ _ _ _ _ hTM
          subst hu
          simp only [TokState.advance, TokState.next, TokState.peekStr]
          rw [if_neg (fun hc => hc rfl : ¬((")" : String) ≠ ")"))]
          rw [if_neg (fun hc => hc.1 rfl :
            ¬((("," : String) ≠ ",") ∧ (("," : String) ≠ ")")))]
          rw [if_pos trivial]
          have hpname : ps.p.name = an := by
            unfold findPState at hf
            have hget := List.find?_some hf
            exact of_decide_eq_true hget
          obtain ⟨a0, ha0mem, ha0def⟩ := hex
          rcases List.mem_cons.mp ha0mem with h0 | h0
          · exfalso
            have hda : EnvI.Defined env ps.p.name = true := by
              rw [hpname]
              rw [h0] at ha0def
              exact ha0def
            rw [TMI_defined_error env _ ps hda] at hTM
            exact Except.noConfusion hTM
          · exact ih n0 env2 (setPState inits an ps2) src tail _
              (fun b hb => hn b (List.mem_cons_of_mem _ hb))
              ⟨a0, h0, hmono a0.1 ha0def⟩

theorem parseArgs_dup_err :
    ∀ (args : List (String × PrimLit)) (fuel : Nat) (env : EnvI)
      (inits : List PState) (src : List Char) (tail : List Tok) (le : Nat),
      (∀ a ∈ args, a.1 ≠ ")") → dupNames args = true →
      isErrB (parseArgs specReadAndSet fuel env inits
        ⟨src, renderArgs args ++ tail, le⟩) = true := by
  intro args
  induction args with
  | nil =>
    intro fuel env inits src tail le hn hdup
    simp [dupNames] at hdup
  | cons a r ih =>
    intro fuel env inits src tail le hn hdup
    obtain ⟨an, av⟩ := a
    have han : an ≠ ")" := hn (an, av) (List.mem_cons_self _ _)
    cases fuel with
    | zero => rfl
    | succ n0 =>
      rw [parseArgs]
      simp only [renderArgs, renderArg, List.cons_append, List.nil_append,
        TokState.peekStr, TokState.peekKind, TokState.peekTokenStart,
        TokState.next]
      rw [if_neg han]
      rw [if_neg (fun hc => hc rfl : ¬(TokKind.ident ≠ TokKind.ident))]
      cases hf : findPState inits an with
      | none => rfl
      | some ps =>
        dsimp only
        rw [if_neg (fun hc => hc rfl : ¬(("(" : String) ≠ "("))]
        cases hTM : TMIInit specReadAndSet env
            (litTok av :: ⟨TokKind.punct, ")", 0, 0⟩ ::
              ⟨TokKind.punct, ",", 0, 0⟩ :: (renderArgs r ++ tail)) ps with
        | error f => rfl
        | ok trip =>
          obtain ⟨env2, used, ps2⟩ := trip
          dsimp only
          obtain ⟨hu, hdef, hmono⟩ := TMI_specRAS_ok_facts _ _ _ _ _ _ hTM
          subst hu
          simp only [TokState.advance, TokState.next, TokState.peekStr]
          rw [if_neg (fun hc => hc rfl : ¬((")" : String) ≠ ")"))]
          rw [if_neg (fun hc => hc.1 rfl :
            ¬((("," : String) ≠ ",") ∧ (("," : String) ≠ ")")))]
          rw [if_pos trivial]
          have hpname : ps.p.name = an := by
            unfold findPState at hf
            have hget := List.find?_some hf
            exact of_decide_eq_true hget
          simp only [dupNames] at hdup
          by_cases hany : (r.any fun b => decide (b.1 = an)) = true
          · obtain ⟨b, hbmem, hbeq⟩ := List.any_eq_true.mp hany
            apply parseArgs_member_defined_err r n0 env2
              (setPState inits an ps2) src tail _
              (fun c hc => hn c (List.mem_cons_of_mem _ hc))
            refine ⟨b, hbmem, ?_⟩
            rw [of_decide_eq_true hbeq, ← hpname]
            exact hdef
          · have hd2 : dupNames r = true := by
              rw [Bool.not_eq_true] at hany
              rw [hany] at hdup
              simpa using hdup
            exact ih n0 env2 (setPState inits an ps2) src tail _
              (fun c hc => hn c (List.mem_cons_of_mem _ hc)) hd2

/-- Claim C5: inside one invocation parsed by `CreateOrDie`, a parameter
    name appearing twice makes the construction fail fatally: the second
    `Init` call runs `ReadAndSet` on a name the child environment already
    holds, which fails (`ReadAndSet` is modelled from the spec, sections
    4.3 and 4.5; the loop itself is factory.h lines 810-873).  Stated over
    every rendered argument list with a duplicated name (argument names
    are identifiers, hence never the token `")"`). -/
theorem claim_c5 (tbl : List (String × Ctor)) (env : EnvI) (ty : String)
    (args : List (String × PrimLit)) (src : List Char) (le : Nat)
    (hdup : dupNames args = true) (hn : ∀ a ∈ args, a.1 ≠ ")") :
    isErrB (createOrDie specReadAndSet tbl (some env)
      ⟨src, renderInvocation ty args, le⟩) = true := by
  unfold createOrDie
  simp only [envCopyOf, renderInvocation, TokState.peekKind, TokState.peekStr,
    TokState.peekTokenStart, TokState.next]
  rw [if_neg (fun hc => TokKind.noConfusion hc.1 :
    ¬(TokKind.ident = TokKind.reserved ∧ ((ty = "nullptr") ∨ (ty = "NULL"))))]
  rw [if_neg (fun hc => hc rfl : ¬(TokKind.ident ≠ TokKind.ident))]
  rw [if_neg (fun hc => hc rfl : ¬(("(" : String) ≠ "("))]
  cases hty : lookupA tbl ty with
  | none => rfl
  | some ctor =>
    dsimp only
    cases hbp : buildPStates ctor.params [] with
    | none => rfl
    | some inits0 =>
      dsimp only
      have herr := parseArgs_dup_err args
        ((renderArgs args ++ [Tok.mk TokKind.punct ")" 0 0]).length + 1)
        (EnvI.Copy env) inits0 src [Tok.mk TokKind.punct ")" 0 0] 0 hn hdup
      cases hpa : parseArgs specReadAndSet
          ((renderArgs args ++ [Tok.mk TokKind.punct ")" 0 0]).length + 1)
          (EnvI.Copy env) inits0
          ⟨src, renderArgs args ++ [Tok.mk TokKind.punct ")" 0 0], 0⟩ with
      | error f => rfl
      | ok trip =>
        rw [hpa] at herr
        simp [isErrB] at herr


/-- Witness for claim C5: `Cow(age(5), age(6))` fails. -/
theorem claim_c5_witness :
    dupNames [("age", PrimLit.pI 5), ("age", PrimLit.pI 6)] = true ∧
    isErrB (createOrDie specReadAndSet cowTbl (some emptyEnvI)
      ⟨[], renderInvocation "Cow"
        [("age", PrimLit.pI 5), ("age", PrimLit.pI 6)], 0⟩) = true :=
  ⟨by decide,
   claim_c5 cowTbl emptyEnvI "Cow"
     [("age", PrimLit.pI 5), ("age", PrimLit.pI 6)] [] 0 (by decide)
     (by
       intro a ha
       simp only [List.mem_cons, List.not_mem_nil, or_false] at ha
       rcases ha with h | h <;> subst h <;> decide)⟩
